import Mathlib

/-!
Verification of the MCMC double-well sampler in `src/1d_tests/mcmc_het.py`.

The file shallowly embeds the three core functions of the module:

* `energy_em` — the Energy Model, transcribed from the source line
  `energy = -kT * np.sum(logsumexp(0.5 * np.exp(-(X[:, None] - images)**2 / (2 * sigma**2)), axis=0))`.
  With `X` of shape `(2,)` and `images` of shape `(N,)`, the broadcast
  `X[:, None] - images` has shape `(2, N)` and `logsumexp(A, axis=0)` is
  `log (exp A₀ⱼ + exp A₁ⱼ)` for each observation `j`; `np.sum` then adds the
  per-observation results.  Real numbers are modelled by `ℝ`.

* `prior` — the quadratic prior `kT * 0.5 * (x / sigma)**2`.

* `do_mcmc` — the dual-coordinate sampler.  Its state (current configuration
  `x`, cached energy `old_e`, the preallocated array `samples` together with
  the write cursor `c`) is modelled by `MCState`; since the Python writes
  `samples[c]` and then increments `c`, and finally returns `samples[:c, :]`,
  the array-plus-cursor is modelled as an append-only list whose length is
  always `c`.  Each loop iteration consumes the four random draws of that
  iteration (the two Gaussian displacements `dx = np.random.normal(0, 0.1, 2)`
  and the two exponential acceptance thresholds `p_a = -np.log(np.random.rand(2))`),
  modelled as an `MCRand` record; the source of randomness is a function from
  the iteration index to such a record.  The Python loop `for _ in range(1, steps)`
  performs `steps - 1` iterations after the unconditional `samples[0] = x0`.

  The source's sampler calls an energy function named `p_em`, which is not
  defined anywhere in the module (the module defines `energy_em`); the sampler
  is therefore embedded with the energy function as an explicit parameter `E`,
  standing for whatever `p_em` denotes, so every theorem about the sampler
  holds for an arbitrary energy function.  The sampler's arithmetic and
  comparisons are generic over a `LinearOrderedField`, so that theorems apply
  to `ℝ` while concrete witnesses can be evaluated over `ℚ`.

The name-resolution facts needed for the `p_em` defect are recorded as lists
of the module's top-level names and of the global names referenced by
`do_mcmc`'s body.
-/

namespace McmcHet

/-- The Energy Model `energy_em(X, images, sigma, kT)` of the source, at a
configuration `X = (x1, x2)`: `-kT` times the sum over observations `v` of
`logsumexp` applied along the coordinate axis to the array whose entries are
`0.5 * exp(-(xᵢ - v)² / (2σ²))` — i.e. `log (exp a₁ + exp a₂)` where
`aᵢ = 0.5 * exp(-(xᵢ - v)² / (2σ²))`. -/
noncomputable def energy_em (X : ℝ × ℝ) (images : List ℝ) (sigma kT : ℝ) : ℝ :=
  -kT * (images.map (fun v =>
      Real.log (Real.exp ((1 / 2) * Real.exp (-(X.1 - v) ^ 2 / (2 * sigma ^ 2)))
        + Real.exp ((1 / 2) * Real.exp (-(X.2 - v) ^ 2 / (2 * sigma ^ 2)))))).sum

/-- The energy the specification describes: `kT` times the negative log of the
mixture likelihood, `-kT * Σⱼ log (0.5 * exp(-(x1 - vⱼ)²/(2σ²)) + 0.5 * exp(-(x2 - vⱼ)²/(2σ²)))`.
Stated from the spec's words, to be compared with `energy_em`. -/
noncomputable def energy_mixture_spec (X : ℝ × ℝ) (images : List ℝ) (sigma kT : ℝ) : ℝ :=
  -kT * (images.map (fun v =>
      Real.log ((1 / 2) * Real.exp (-(X.1 - v) ^ 2 / (2 * sigma ^ 2))
        + (1 / 2) * Real.exp (-(X.2 - v) ^ 2 / (2 * sigma ^ 2))))).sum

/-- The prior `prior = lambda x, sigma, kT: kT * 0.5 * (x / sigma)**2`. -/
def prior {α : Type} [LinearOrderedField α] (x sigma kT : α) : α :=
  kT * (1 / 2) * (x / sigma) ^ 2

/-- The four random draws one sampler iteration consumes: the two Gaussian
displacements `dx[0], dx[1]` and the two realized acceptance thresholds
`p_a[0], p_a[1] = -log(rand())`. -/
structure MCRand (α : Type) where
  dx1 : α
  dx2 : α
  t1 : α
  t2 : α
deriving DecidableEq

/-- The sampler's loop state: current configuration `x`, cached energy
`old_e`, the written prefix of the `samples` array, and the cursor `c`
(an invariant of the embedding: `samples.length = c`). -/
structure MCState (α : Type) where
  x : α × α
  old_e : α
  samples : List (α × α)
  c : ℕ
deriving DecidableEq

variable {α : Type} [LinearOrderedField α]

/-- One iteration of `do_mcmc`'s loop body (source lines 72–154), with the
energy function `E` (the source's `p_em`) as a parameter.  `accept xn` is the
common body of every accepting branch: `x = xn; samples[c] = x;
old_e = p_em(x, ...); c += 1`. -/
def mcmcStep (E : α × α → α) (kT : α) (s : MCState α) (r : MCRand α) : MCState α :=
  let x1 := s.x.1 + r.dx1
  let x2 := s.x.2 + r.dx2
  let a1 := E (x1, s.x.2) - s.old_e - prior x1 3 kT + prior s.x.1 3 kT
  let a2 := E (s.x.1, x2) - s.old_e - prior x2 3 kT + prior s.x.2 3 kT
  let accept : α × α → MCState α := fun xn =>
    { x := xn, old_e := E xn, samples := s.samples ++ [xn], c := s.c + 1 }
  if a1 < 0 ∧ a2 < 0 then accept (x1, x2)
  else if a1 < 0 ∧ a2 > 0 then
    if a2 < r.t2 then accept (x1, x2) else accept (x1, s.x.2)
  else if a1 > 0 ∧ a2 < 0 then
    if a1 < r.t1 then accept (x1, x2) else accept (s.x.1, x2)
  else if a1 > 0 ∧ a2 > 0 then
    if a1 < r.t1 ∧ a2 < r.t2 then accept (x1, x2)
    else if a1 < r.t1 ∧ a2 > r.t2 then accept (x1, s.x.2)
    else if a1 > r.t1 ∧ a2 < r.t2 then accept (s.x.1, x2)
    else s
  else s

/-- Folding the loop body over a list of per-iteration random draws. -/
def mcmcRun (E : α × α → α) (kT : α) (s : MCState α) (rs : List (MCRand α)) : MCState α :=
  rs.foldl (mcmcStep E kT) s

/-- The sampler's state after "step 0": `x = x0`, `samples[0] = x`, `c = 1`,
`old_e = p_em(x, ...)` (source lines 60–65). -/
def initState (x0 : α × α) (E : α × α → α) : MCState α :=
  { x := x0, old_e := E x0, samples := [x0], c := 1 }

/-- `do_mcmc(steps, images, x0, sigma, kT)`: after step 0, run the loop body
for the `steps - 1` iterations of `range(1, steps)`, drawing iteration `i`'s
randomness from `randF i`, and return `samples[:c, :]`.  `E` stands for the
energy function `x ↦ p_em(x, images, sigma, kT)`. -/
def do_mcmc (steps : ℕ) (randF : ℕ → MCRand α) (x0 : α × α) (E : α × α → α)
    (kT : α) : List (α × α) :=
  (mcmcRun E kT (initState x0 E) ((List.range (steps - 1)).map randF)).samples

/-- The configurations appended during the iterations, in order: iteration by
iteration, the new configuration when the iteration accepted (observable as
the cursor advancing), nothing when it rejected. -/
def acceptedConfigs (E : α × α → α) (kT : α) : MCState α → List (MCRand α) → List (α × α)
  | _, [] => []
  | s, r :: rs =>
      let t := mcmcStep E kT s r
      (if t.c = s.c then [] else [t.x]) ++ acceptedConfigs E kT t rs

/-- The four-way acceptance branch of `do_mcmc` (source lines 89–154) as a
function of the two acceptance scores and the two thresholds, returning which
coordinates' proposals are accepted. -/
def fourWay (a1 a2 t1 t2 : α) : Bool × Bool :=
  if a1 < 0 ∧ a2 < 0 then (true, true)
  else if a1 < 0 ∧ a2 > 0 then
    if a2 < t2 then (true, true) else (true, false)
  else if a1 > 0 ∧ a2 < 0 then
    if a1 < t1 then (true, true) else (false, true)
  else if a1 > 0 ∧ a2 > 0 then
    if a1 < t1 ∧ a2 < t2 then (true, true)
    else if a1 < t1 ∧ a2 > t2 then (true, false)
    else if a1 > t1 ∧ a2 < t2 then (false, true)
    else (false, false)
  else (false, false)

/-- The spec's re-architected per-coordinate rule, from its words:
"accept coordinate i iff score_i < 0 OR score_i < threshold_i". -/
def perCoordAccept (a t : α) : Bool :=
  decide (a < 0) || decide (a < t)

/-- The names bound at the top level of the module `mcmc_het.py`: the
bindings introduced by its import statements and its own definitions. -/
def moduleTopLevelNames : List String :=
  ["scipy", "stats", "interpolate", "logsumexp", "np", "random", "plt", "sns",
   "gen_images", "energy_em", "prior", "do_mcmc", "p_to_fes", "gen_fes",
   "compare_dist", "compare_hist", "main"]

/-- The global (non-local, non-builtin `range`) names referenced by the body
of `do_mcmc`. -/
def do_mcmc_globalRefs : List String :=
  ["np", "p_em", "prior"]

/-- Every loop iteration either leaves the state unchanged (no branch of the
conditional accepted) or is an acceptance: it appends exactly the new current
configuration to `samples`, advances the cursor by one, and recomputes the
cached energy at the new configuration. -/
theorem mcmcStep_cases (E : α × α → α) (kT : α) (s : MCState α) (r : MCRand α) :
    mcmcStep E kT s r = s ∨
      ((mcmcStep E kT s r).samples = s.samples ++ [(mcmcStep E kT s r).x]
        ∧ (mcmcStep E kT s r).c = s.c + 1
        ∧ (mcmcStep E kT s r).old_e = E (mcmcStep E kT s r).x) := by
  unfold mcmcStep
  dsimp only
  split_ifs <;> first
    | exact Or.inl rfl
    | exact Or.inr ⟨rfl, rfl, rfl⟩

theorem mcmcRun_nil (E : α × α → α) (kT : α) (s : MCState α) :
    mcmcRun E kT s [] = s := rfl

theorem mcmcRun_cons (E : α × α → α) (kT : α) (s : MCState α) (r : MCRand α)
    (rs : List (MCRand α)) :
    mcmcRun E kT s (r :: rs) = mcmcRun E kT (mcmcStep E kT s r) rs := rfl

/-- The `samples` array after a run is the starting `samples` prefix followed
by exactly the configurations accepted during the iterations, in order. -/
theorem mcmcRun_samples (E : α × α → α) (kT : α) (rs : List (MCRand α)) (s : MCState α) :
    (mcmcRun E kT s rs).samples = s.samples ++ acceptedConfigs E kT s rs := by
  induction rs generalizing s with
  | nil => simp [mcmcRun, acceptedConfigs]
  | cons r t ih =>
      rw [mcmcRun_cons, ih, acceptedConfigs]
      rcases mcmcStep_cases E kT s r with h | ⟨h1, h2, h3⟩
      · rw [h, if_pos rfl, List.nil_append]
      · rw [if_neg (by rw [h2]; exact Nat.succ_ne_self s.c), h1, List.append_assoc]

/-- During a run at most one configuration is accepted per iteration. -/
theorem acceptedConfigs_length_le (E : α × α → α) (kT : α) (rs : List (MCRand α))
    (s : MCState α) :
    (acceptedConfigs E kT s rs).length ≤ rs.length := by
  induction rs generalizing s with
  | nil => simp [acceptedConfigs]
  | cons r t ih =>
      rw [acceptedConfigs, List.length_append, List.length_cons]
      have h : (if (mcmcStep E kT s r).c = s.c then ([] : List (α × α))
          else [(mcmcStep E kT s r).x]).length ≤ 1 := by
        split <;> simp
      have h2 := ih (mcmcStep E kT s r)
      omega

/-- The returned `samples[:c, :]` decomposes as the unconditionally written
`samples[0] = x0` followed by the configurations accepted during the
iterations, in order. -/
theorem do_mcmc_decomp (steps : ℕ) (randF : ℕ → MCRand α) (x0 : α × α)
    (E : α × α → α) (kT : α) :
    do_mcmc steps randF x0 E kT
      = x0 :: acceptedConfigs E kT (initState x0 E)
          ((List.range (steps - 1)).map randF) := by
  unfold do_mcmc
  rw [mcmcRun_samples]
  rfl

/-- As long as the cached energy matches the current configuration at entry,
it still matches after any run of iterations. -/
theorem mcmcRun_old_e (E : α × α → α) (kT : α) (rs : List (MCRand α)) :
    ∀ s : MCState α, s.old_e = E s.x →
      (mcmcRun E kT s rs).old_e = E (mcmcRun E kT s rs).x := by
  induction rs with
  | nil => intro s h; exact h
  | cons r t ih =>
      intro s h
      rw [mcmcRun_cons]
      apply ih
      rcases mcmcStep_cases E kT s r with hc | ⟨h1, h2, h3⟩
      · rw [hc]; exact h
      · exact h3

/-- C1: `energy_em` does not return `kT` times the negative log of the mixture
likelihood.  At configuration `(0, 0)`, dataset `[0]`, `sigma = 1`, `kT = 1`,
the claimed value is `-log (0.5 + 0.5) = 0`, but the code applies `logsumexp`
to the already-exponentiated mixture weights and returns
`-log (exp 0.5 + exp 0.5) = -(log 2 + 1/2) ≠ 0`. -/
theorem energy_em_logsumexp_misuse :
    energy_em (0, 0) [0] 1 1 = -(Real.log 2 + 1 / 2)
      ∧ energy_mixture_spec (0, 0) [0] 1 1 = 0
      ∧ energy_em (0, 0) [0] 1 1 ≠ energy_mixture_spec (0, 0) [0] 1 1 := by
  have e1 : energy_em (0, 0) [0] 1 1 = -(Real.log 2 + 1 / 2) := by
    unfold energy_em
    norm_num
    rw [← two_mul, Real.log_mul two_ne_zero (Real.exp_ne_zero _), Real.log_exp]
    ring
  have e2 : energy_mixture_spec (0, 0) [0] 1 1 = 0 := by
    unfold energy_mixture_spec
    norm_num
  refine ⟨e1, e2, ?_⟩
  rw [e1, e2]
  have hl : 0 < Real.log 2 := Real.log_pos one_lt_two
  intro h
  linarith

/-- C9: the Energy Model is invariant under swapping the two coordinates:
for every dataset, `sigma`, `kT` and pair `(x1, x2)`,
`energy_em (x1, x2) = energy_em (x2, x1)`. -/
theorem energy_em_swap (x1 x2 : ℝ) (images : List ℝ) (sigma kT : ℝ) :
    energy_em (x1, x2) images sigma kT = energy_em (x2, x1) images sigma kT := by
  have key : ∀ t : List ℝ,
      (t.map (fun v =>
        Real.log (Real.exp ((1 / 2) * Real.exp (-(x1 - v) ^ 2 / (2 * sigma ^ 2)))
          + Real.exp ((1 / 2) * Real.exp (-(x2 - v) ^ 2 / (2 * sigma ^ 2)))))).sum
      = (t.map (fun v =>
        Real.log (Real.exp ((1 / 2) * Real.exp (-(x2 - v) ^ 2 / (2 * sigma ^ 2)))
          + Real.exp ((1 / 2) * Real.exp (-(x1 - v) ^ 2 / (2 * sigma ^ 2)))))).sum := by
    intro t
    induction t with
    | nil => simp only [List.map_nil, List.sum_nil]
    | cons v l ih =>
        simp only [List.map_cons, List.sum_cons, ih]
        rw [add_comm (Real.exp ((1 / 2) * Real.exp (-(x1 - v) ^ 2 / (2 * sigma ^ 2))))]
  unfold energy_em
  dsimp only
  rw [key images]

/-- C2: the body of `do_mcmc` references the global name `p_em`, which is not
bound at the top level of the module, so every call of the sampler fails with
a `NameError` when line 65 executes, before any iteration runs. -/
theorem do_mcmc_references_undefined_p_em :
    "p_em" ∈ do_mcmc_globalRefs ∧ "p_em" ∉ moduleTopLevelNames := by
  decide

/-- C3 (amended): the returned sequence is the initial configuration `x0`
followed by exactly the configurations accepted during the iterations, in
acceptance order; the first entry was written by `samples[0] = x` before the
loop and was never subjected to an acceptance test. -/
theorem do_mcmc_eq_x0_cons_accepted (steps : ℕ) (randF : ℕ → MCRand α)
    (x0 : α × α) (E : α × α → α) (kT : α) :
    do_mcmc steps randF x0 E kT
      = x0 :: acceptedConfigs E kT (initState x0 E)
          ((List.range (steps - 1)).map randF) :=
  do_mcmc_decomp steps randF x0 E kT

/-- C3 counterexample: with requested step count 1 no iteration runs, so no
configuration is ever accepted, yet the returned sequence contains the initial
configuration `(5, 7)`. -/
theorem do_mcmc_entry_never_accepted :
    ((5, 7) : ℚ × ℚ) ∈ do_mcmc 1 (fun _ => ⟨0, 0, 1, 1⟩) (5, 7) (fun _ => 0) 1
      ∧ ((5, 7) : ℚ × ℚ) ∉ acceptedConfigs (fun _ => (0 : ℚ)) 1
          (initState (5, 7) (fun _ => 0))
          ((List.range (1 - 1)).map (fun _ => ⟨0, 0, 1, 1⟩)) := by
  refine ⟨?_, ?_⟩ <;> decide

/-- C5: for every requested step count ≥ 1 the returned sequence has length at
most `steps` (its length is a natural number, hence at least 0); in particular
for `steps = 1` the length is at most 1. -/
theorem do_mcmc_length_le (steps : ℕ) (randF : ℕ → MCRand α) (x0 : α × α)
    (E : α × α → α) (kT : α) (h : 1 ≤ steps) :
    (do_mcmc steps randF x0 E kT).length ≤ steps := by
  unfold do_mcmc
  rw [mcmcRun_samples]
  have h2 := acceptedConfigs_length_le E kT ((List.range (steps - 1)).map randF)
    (initState x0 E)
  have h3 : (initState x0 E : MCState α).samples.length = 1 := rfl
  have h4 : ((List.range (steps - 1)).map randF).length = steps - 1 := by
    rw [List.length_map, List.length_range]
  rw [List.length_append, h3]
  omega

/-- C5 witness: a run with requested step count 1 returns at most one sample. -/
theorem do_mcmc_length_le_witness :
    (do_mcmc 1 (fun _ => (⟨0, 0, 1, 1⟩ : MCRand ℚ)) (0, 0) (fun _ => 0) 1).length ≤ 1 :=
  do_mcmc_length_le 1 (fun _ => ⟨0, 0, 1, 1⟩) (0, 0) (fun _ => 0) 1 (by decide)

/-- C10: for every requested step count ≥ 1 the returned sequence is
non-empty and its first entry is the initial configuration `x0`, which was
never subjected to an acceptance test. -/
theorem do_mcmc_head_eq_x0 (steps : ℕ) (randF : ℕ → MCRand α) (x0 : α × α)
    (E : α × α → α) (kT : α) (h : 1 ≤ steps) :
    (do_mcmc steps randF x0 E kT).head? = some x0
      ∧ 1 ≤ (do_mcmc steps randF x0 E kT).length := by
  rw [do_mcmc_decomp]
  exact ⟨rfl, by simp⟩

/-- C10 witness: a run with requested step count 1 returns exactly the initial
configuration as its head. -/
theorem do_mcmc_head_eq_x0_witness :
    (do_mcmc 1 (fun _ => (⟨0, 0, 1, 1⟩ : MCRand ℚ)) (2, 3) (fun _ => 0) 1).head?
        = some (2, 3)
      ∧ 1 ≤ (do_mcmc 1 (fun _ => (⟨0, 0, 1, 1⟩ : MCRand ℚ)) (2, 3) (fun _ => 0) 1).length :=
  do_mcmc_head_eq_x0 1 (fun _ => ⟨0, 0, 1, 1⟩) (2, 3) (fun _ => 0) 1 (by decide)

/-- C6: when either acceptance score is exactly zero, none of the four branch
conditions (`a1 < 0`/`a1 > 0` crossed with `a2 < 0`/`a2 > 0`) holds, so the
iteration rejects both coordinates and leaves the whole state — configuration,
cached energy, samples, cursor — unchanged. -/
theorem mcmcStep_zero_score (E : α × α → α) (kT : α) (s : MCState α) (r : MCRand α)
    (h : E (s.x.1 + r.dx1, s.x.2) - s.old_e - prior (s.x.1 + r.dx1) 3 kT
          + prior s.x.1 3 kT = 0
        ∨ E (s.x.1, s.x.2 + r.dx2) - s.old_e - prior (s.x.2 + r.dx2) 3 kT
          + prior s.x.2 3 kT = 0) :
    mcmcStep E kT s r = s := by
  unfold mcmcStep
  dsimp only
  rcases h with h | h <;> rw [h] <;> simp

/-- C6 witness: a concrete iteration over `ℚ` whose first score is exactly
zero and whose second score is negative (unconditionally favorable) still
leaves the state unchanged. -/
theorem mcmcStep_zero_score_witness :
    mcmcStep (fun p => p.2) (0 : ℚ) ⟨(0, 0), 0, [(0, 0)], 1⟩ ⟨1, -1, 5, 5⟩
      = ⟨(0, 0), 0, [(0, 0)], 1⟩ :=
  mcmcStep_zero_score (fun p => p.2) 0 ⟨(0, 0), 0, [(0, 0)], 1⟩ ⟨1, -1, 5, 5⟩
    (Or.inl (by norm_num [prior]))

/-- C7: an iteration that accepts neither coordinate — observable as the
cursor not advancing — leaves the entire state unchanged: nothing is appended
and the configuration, cached energy and cursor are as before. -/
theorem mcmcStep_reject_frame (E : α × α → α) (kT : α) (s : MCState α)
    (r : MCRand α) (h : (mcmcStep E kT s r).c = s.c) :
    mcmcStep E kT s r = s := by
  rcases mcmcStep_cases E kT s r with hc | ⟨h1, h2, h3⟩
  · exact hc
  · rw [h] at h2
    exact absurd h2 (by omega)

/-- C7 witness: a concrete iteration over `ℚ` in which both scores are
positive and exceed their thresholds, so nothing changes. -/
theorem mcmcStep_reject_frame_witness :
    mcmcStep (fun p => p.1 + p.2) (0 : ℚ) ⟨(0, 0), 0, [(0, 0)], 1⟩
        ⟨1, 1, 1 / 2, 1 / 2⟩
      = ⟨(0, 0), 0, [(0, 0)], 1⟩ :=
  mcmcStep_reject_frame (fun p => p.1 + p.2) 0 ⟨(0, 0), 0, [(0, 0)], 1⟩
    ⟨1, 1, 1 / 2, 1 / 2⟩ (by norm_num [mcmcStep, prior])

/-- C8: starting from the initial state, after any run of iterations the
cached energy `old_e` equals the energy of the current configuration; and
every single iteration either rejects (the whole state, cache included, is
unchanged) or accepts, advancing the cursor and recomputing the cache at the
new configuration. -/
theorem old_e_cache_invariant (E : α × α → α) (kT : α) (x0 : α × α)
    (rs : List (MCRand α)) (s : MCState α) (r : MCRand α) :
    (mcmcRun E kT (initState x0 E) rs).old_e
        = E (mcmcRun E kT (initState x0 E) rs).x
      ∧ (mcmcStep E kT s r = s
          ∨ ((mcmcStep E kT s r).old_e = E (mcmcStep E kT s r).x
              ∧ (mcmcStep E kT s r).c = s.c + 1)) := by
  constructor
  · exact mcmcRun_old_e E kT rs (initState x0 E) rfl
  · rcases mcmcStep_cases E kT s r with h | ⟨h1, h2, h3⟩
    · exact Or.inl h
    · exact Or.inr ⟨h3, h2⟩

/-- The loop body realizes the four-way branch: one iteration is exactly the
outcome `fourWay` computes from the two scores and the two thresholds. -/
theorem mcmcStep_eq_fourWay (E : α × α → α) (kT : α) (s : MCState α) (r : MCRand α) :
    mcmcStep E kT s r =
      (let x1 := s.x.1 + r.dx1
       let x2 := s.x.2 + r.dx2
       let a1 := E (x1, s.x.2) - s.old_e - prior x1 3 kT + prior s.x.1 3 kT
       let a2 := E (s.x.1, x2) - s.old_e - prior x2 3 kT + prior s.x.2 3 kT
       match fourWay a1 a2 r.t1 r.t2 with
       | (true, true) =>
           { x := (x1, x2), old_e := E (x1, x2),
             samples := s.samples ++ [(x1, x2)], c := s.c + 1 }
       | (true, false) =>
           { x := (x1, s.x.2), old_e := E (x1, s.x.2),
             samples := s.samples ++ [(x1, s.x.2)], c := s.c + 1 }
       | (false, true) =>
           { x := (s.x.1, x2), old_e := E (s.x.1, x2),
             samples := s.samples ++ [(s.x.1, x2)], c := s.c + 1 }
       | (false, false) => s) := by
  unfold mcmcStep fourWay
  dsimp only
  split_ifs <;> rfl

/-- C4 counterexample: at scores `(0, -1)` and positive thresholds `(1, 1)`
the four-way branch rejects both coordinates, while the per-coordinate rule
"accept iff score < 0 or score < threshold" accepts both. -/
theorem fourWay_ne_perCoord_at_zero :
    (0 : ℚ) < 1
      ∧ fourWay (0 : ℚ) (-1) 1 1 = (false, false)
      ∧ (perCoordAccept (0 : ℚ) 1, perCoordAccept (-1 : ℚ) 1) = (true, true)
      ∧ fourWay (0 : ℚ) (-1) 1 1 ≠ (perCoordAccept (0 : ℚ) 1, perCoordAccept (-1 : ℚ) 1) := by
  refine ⟨by decide, by decide, by decide, by decide⟩

/-- C4 (amended): the four-way branch agrees with the independent
per-coordinate rule "accept coordinate i iff score_i < 0 OR
score_i < threshold_i" for all scores and positive thresholds, except on the
boundary cases the counterexample exhibits: a score exactly 0, or a score
exactly equal to its threshold. -/
theorem fourWay_eq_perCoordAccept (a1 a2 t1 t2 : α) (ht1 : 0 < t1) (ht2 : 0 < t2)
    (h1 : a1 ≠ 0) (h2 : a2 ≠ 0) (h1t : a1 ≠ t1) (h2t : a2 ≠ t2) :
    fourWay a1 a2 t1 t2 = (perCoordAccept a1 t1, perCoordAccept a2 t2) := by
  rcases h1.lt_or_lt with ha1 | ha1 <;> rcases h2.lt_or_lt with ha2 | ha2
  · simp [fourWay, perCoordAccept, ha1, ha2]
  · rcases h2t.lt_or_lt with hb2 | hb2 <;>
      simp [fourWay, perCoordAccept, ha1, ha2, hb2, asymm ha2, asymm hb2]
  · rcases h1t.lt_or_lt with hb1 | hb1 <;>
      simp [fourWay, perCoordAccept, ha1, ha2, hb1, asymm ha1, asymm hb1]
  · rcases h1t.lt_or_lt with hb1 | hb1 <;> rcases h2t.lt_or_lt with hb2 | hb2 <;>
      simp [fourWay, perCoordAccept, ha1, ha2, hb1, hb2, asymm ha1, asymm ha2,
        asymm hb1, asymm hb2]

/-- C4 witness: a concrete non-boundary instance over `ℚ` where the four-way
branch and the per-coordinate rule agree. -/
theorem fourWay_eq_perCoordAccept_witness :
    fourWay (-1 : ℚ) 5 2 3 = (perCoordAccept (-1 : ℚ) 2, perCoordAccept (5 : ℚ) 3) :=
  fourWay_eq_perCoordAccept (-1) 5 2 3 (by decide) (by decide) (by decide)
    (by decide) (by decide) (by decide)

end McmcHet
